import Mathlib

/-!
# Verification of `easy-process` (`src/src/lib.rs`)

A shallow embedding of the `easy_process` crate: the `run` and
`run_with_stdin` orchestrators, the `Output`/`Error` data model and the
`From<checked_command::Error>` conversion are translated from the Rust
source.  The two external collaborators — the POSIX command-line
tokenizer (`cmdline_words_parser::parse_posix`) and the process
execution primitive (`checked_command` over the OS) — are not part of
the repository; they are modelled from the specification's description
of their contracts, as noted on each definition.
-/

namespace EasyProcess

/-! ## Lossy UTF-8 decoding (model of `String::from_utf8_lossy`) -/

/-- The Unicode replacement character U+FFFD. -/
def replacementChar : Char := Char.ofNat 0xFFFD

/-- Is `b` a UTF-8 continuation byte (`0x80..0xBF`)? -/
def isCont (b : Nat) : Bool := 0x80 ≤ b && b ≤ 0xBF

/-- Modelled from the spec: lossy UTF-8 decoding of a byte sequence —
invalid byte sequences are replaced with U+FFFD, decoding never fails.
Follows the standard maximal-subpart substitution used by Rust's
`String::from_utf8_lossy`. -/
def lossyChars : List Nat → List Char
  | [] => []
  | b :: rest =>
    if b ≤ 0x7F then Char.ofNat b :: lossyChars rest
    else if b < 0xC2 then replacementChar :: lossyChars rest
    else if b ≤ 0xDF then
      match rest with
      | [] => [replacementChar]
      | c1 :: r1 =>
        if isCont c1 then
          Char.ofNat ((b - 0xC0) * 0x40 + (c1 - 0x80)) :: lossyChars r1
        else replacementChar :: lossyChars (c1 :: r1)
    else if b ≤ 0xEF then
      match rest with
      | [] => [replacementChar]
      | c1 :: r1 =>
        -- lead-dependent first-continuation range excludes overlong
        -- encodings (E0) and surrogates (ED)
        if (if b = 0xE0 then 0xA0 ≤ c1 && c1 ≤ 0xBF
            else if b = 0xED then 0x80 ≤ c1 && c1 ≤ 0x9F
            else isCont c1) then
          match r1 with
          | [] => [replacementChar]
          | c2 :: r2 =>
            if isCont c2 then
              Char.ofNat ((b - 0xE0) * 0x1000 + (c1 - 0x80) * 0x40 + (c2 - 0x80))
                :: lossyChars r2
            else replacementChar :: lossyChars (c2 :: r2)
        else replacementChar :: lossyChars (c1 :: r1)
    else if b ≤ 0xF4 then
      match rest with
      | [] => [replacementChar]
      | c1 :: r1 =>
        -- lead-dependent range excludes overlong (F0) and > U+10FFFF (F4)
        if (if b = 0xF0 then 0x90 ≤ c1 && c1 ≤ 0xBF
            else if b = 0xF4 then 0x80 ≤ c1 && c1 ≤ 0x8F
            else isCont c1) then
          match r1 with
          | [] => [replacementChar]
          | c2 :: r2 =>
            if isCont c2 then
              match r2 with
              | [] => [replacementChar]
              | c3 :: r3 =>
                if isCont c3 then
                  Char.ofNat ((b - 0xF0) * 0x40000 + (c1 - 0x80) * 0x1000
                      + (c2 - 0x80) * 0x40 + (c3 - 0x80)) :: lossyChars r3
                else replacementChar :: lossyChars (c3 :: r3)
            else replacementChar :: lossyChars (c2 :: r2)
        else replacementChar :: lossyChars (c1 :: r1)
    else replacementChar :: lossyChars rest

/-- Model of `String::from_utf8_lossy(bytes).to_string()`. -/
def from_utf8_lossy (bs : List Nat) : String := String.mk (lossyChars bs)

/-- Standard UTF-8 encoding of a Unicode scalar value. -/
def encodeCharNat (n : Nat) : List Nat :=
  if n < 0x80 then [n]
  else if n < 0x800 then [0xC0 + n / 0x40, 0x80 + n % 0x40]
  else if n < 0x10000 then
    [0xE0 + n / 0x1000, 0x80 + (n / 0x40) % 0x40, 0x80 + n % 0x40]
  else
    [0xF0 + n / 0x40000, 0x80 + (n / 0x1000) % 0x40,
     0x80 + (n / 0x40) % 0x40, 0x80 + n % 0x40]

/-- Standard UTF-8 encoding of a character. -/
def encodeChar (c : Char) : List Nat := encodeCharNat c.toNat

/-- Standard UTF-8 encoding of a string, used to state that lossy
decoding is exact on valid byte sequences. -/
def utf8Encode (s : String) : List Nat := (s.data.map encodeChar).flatten

/-! ## POSIX command-line tokenization
(model of `cmdline_words_parser::parse_posix`) -/

/-- Quoting mode of the tokenizer state machine. -/
inductive QMode where
  | norm       -- outside quotes
  | single     -- inside single quotes: everything literal
  | double     -- inside double quotes: backslash escapes allowed
  | escNorm    -- just saw a backslash outside quotes
  | escDouble  -- just saw a backslash inside double quotes
deriving DecidableEq, Repr

/-- Tokenizer state: quoting mode, current token under construction
(reversed; `none` when between tokens) and the finished tokens
(reversed). -/
structure TokState where
  mode : QMode
  cur : Option (List Char)
  acc : List (List Char)
deriving DecidableEq, Repr

/-- One step of the POSIX tokenizer on a single character. -/
def tokStep (st : TokState) (c : Char) : TokState :=
  match st.mode with
  | .norm =>
    if c = '\'' then { st with mode := .single, cur := some (st.cur.getD []) }
    else if c = '"' then { st with mode := .double, cur := some (st.cur.getD []) }
    else if c = '\\' then { st with mode := .escNorm, cur := some (st.cur.getD []) }
    else if c.isWhitespace then
      match st.cur with
      | none => st
      | some t => { mode := .norm, cur := none, acc := t :: st.acc }
    else { st with cur := some (c :: st.cur.getD []) }
  | .single =>
    if c = '\'' then { st with mode := .norm }
    else { st with cur := some (c :: st.cur.getD []) }
  | .double =>
    if c = '"' then { st with mode := .norm }
    else if c = '\\' then { st with mode := .escDouble }
    else { st with cur := some (c :: st.cur.getD []) }
  | .escNorm => { st with mode := .norm, cur := some (c :: st.cur.getD []) }
  | .escDouble => { st with mode := .double, cur := some (c :: st.cur.getD []) }

/-- Modelled from the spec: the external tokenizer
`cmdline_words_parser::parse_posix` splits a string into
whitespace-separated tokens under POSIX quoting rules — single-quoted
segments are literal, double-quoted segments allow backslash escapes,
an unquoted backslash escapes the next character.  Returns the token
list (first component) together with the buffer contents after the
in-place parse (second component): the parser takes the buffer by
mutable reference and rewrites it with the unescaped token contents,
so the buffer it is run on is in general modified. -/
def parse_posix (s : String) : List String × List Char :=
  let fin := s.data.foldl tokStep ⟨.norm, none, []⟩
  let toks :=
    match fin.cur with
    | none => fin.acc
    | some t => t :: fin.acc
  let tokens := toks.reverse.map (fun t => String.mk t.reverse)
  (tokens, (tokens.map String.data).flatten)

/-- The token list produced by the tokenizer on a command string. -/
def tokensOf (s : String) : List String := (parse_posix s).1

/-! ## Process execution primitive
(model of `checked_command` / `std::process`) -/

/-- An operating-system-level I/O error (opaque payload). -/
structure IoError where
  code : Nat
deriving DecidableEq, Repr

/-- The exit status of a completed process: an exit code, or `none`
when the process was terminated by a signal. -/
structure ExitStatus where
  code : Option Int
deriving DecidableEq, Repr

/-- Model of `ExitStatus::success`: a clean exit is code zero. -/
def ExitStatus.success (s : ExitStatus) : Bool := s.code = some 0

/-- Modelled from the spec: the outcome the operating system produces
for one spawn-and-wait of a given program and argument list — either
an I/O error (program not found, permission denied, ...) or a
completed process with its exit status and the raw bytes it wrote to
stdout and stderr. -/
inductive SpawnOutcome where
  | ioErr (e : IoError)
  | proc (status : ExitStatus) (stdoutBytes stderrBytes : List Nat)
deriving DecidableEq, Repr

/-- The environment: what the operating system does for each program
name and argument list.  Both entry points are parameterised over it. -/
def ProcEnv := String → List String → SpawnOutcome

/-- Which standard streams are configured as piped before spawning. -/
structure SpawnCfg where
  stdinPiped : Bool
  stdoutPiped : Bool
  stderrPiped : Bool
deriving DecidableEq, Repr

/-- Handle to a spawned child's standard input (opaque). -/
def ChildStdin := Unit

/-- A spawned child process: the stdin handle (present exactly when
stdin was configured piped), its eventual exit status, and the bytes
captured from each stream (a stream is captured only when it was
configured piped; otherwise the child inherits the parent's stream and
the primitive reports no bytes for it). -/
structure Child where
  stdin : Option ChildStdin
  status : ExitStatus
  capturedStdout : List Nat
  capturedStderr : List Nat

/-- Modelled from the spec: spawning a child.  On an OS-level error the
I/O error is returned; otherwise a child handle is produced whose
stdin handle is available iff stdin was configured piped, and whose
streams are captured iff configured piped. -/
def spawn (env : ProcEnv) (prog : String) (args : List String) (cfg : SpawnCfg) :
    Except IoError Child :=
  match env prog args with
  | .ioErr e => .error e
  | .proc st out err =>
    .ok { stdin := if cfg.stdinPiped then some () else none
          status := st
          capturedStdout := if cfg.stdoutPiped then out else []
          capturedStderr := if cfg.stderrPiped then err else [] }

/-- Raw captured output of the external primitive
(`checked_command::Output`): byte vectors, not yet decoded. -/
structure CCOutput where
  stdout : List Nat
  stderr : List Nat
deriving DecidableEq, Repr

/-- Model of `checked_command::Error`: either an I/O error or a
process failure carrying the exit status and, when available, the
captured output. -/
inductive CCError where
  | Io (e : IoError)
  | Failure (status : ExitStatus) (output : Option CCOutput)
deriving DecidableEq, Repr

/-- Modelled from the spec: `CheckedChild::wait_with_output` — wait for
the child, collect the captured bytes, and classify by exit status:
a successful status yields the output, an unsuccessful one yields the
`Failure` variant carrying the status together with the output. -/
def wait_with_output (c : Child) : Except CCError CCOutput :=
  if c.status.success then .ok ⟨c.capturedStdout, c.capturedStderr⟩
  else .error (.Failure c.status (some ⟨c.capturedStdout, c.capturedStderr⟩))

/-- Modelled from the spec: `CheckedCommand::output` — spawn with both
output streams piped, wait, and classify the exit status. -/
def checked_output (env : ProcEnv) (prog : String) (args : List String) :
    Except CCError CCOutput :=
  match spawn env prog args ⟨false, true, true⟩ with
  | .error e => .error (.Io e)
  | .ok child => wait_with_output child

/-! ## The repository's own code (`src/src/lib.rs`) -/

/-- `easy_process::Output`: the decoded output of a run
(`pub struct Output { pub stdout: String, pub stderr: String }`). -/
structure Output where
  stdout : String
  stderr : String
deriving DecidableEq, Repr

/-- `Output::default()`: both fields empty. -/
def Output.default : Output := ⟨"", ""⟩

/-- `easy_process::Error`: I/O error, or process failure carrying the
exit status and the decoded output. -/
inductive Error where
  | Io (e : IoError)
  | Failure (status : ExitStatus) (output : Output)
deriving DecidableEq, Repr

/-- `impl From<checked_command::Error> for Error` (lib.rs lines 85-101):
`Io` maps to `Io`; `Failure` maps to `Failure`, lossily decoding the
embedded output when present and using `Output::default()` when the
primitive reports no output. -/
def Error.from_checked : CCError → Error
  | .Io e => .Io e
  | .Failure ex err =>
    .Failure ex
      (match err with
       | some e => { stdout := from_utf8_lossy e.stdout
                     stderr := from_utf8_lossy e.stderr }
       | none => Output.default)

/-- `setup_process` (lib.rs lines 158-165): copy the caller's command
string (`cmd.to_string()`), run the in-place tokenizer on the copy,
take the first token as the program (`args.next().unwrap()` — `none`
here models the panic on an empty token stream) and the rest as
arguments.  The second component is the caller's string after the
call: the tokenizer mutates only the copy, so it is returned as is. -/
def setup_process (cmd : String) : Option (String × List String) × String :=
  let owned := cmd
  let parsed := parse_posix owned
  (match parsed.1 with
   | [] => none
   | p :: args => some (p, args),
   cmd)

/-- Result of a run, with the panic on an empty command made explicit. -/
inductive RunResult (ε : Type) where
  | panicked
  | ok (o : Output)
  | err (e : ε)
deriving DecidableEq, Repr

/-- `run` (lib.rs lines 112-120): tokenize, run `cmd.output()`, map a
primitive error through `From` (the `?` operator), and decode both
captured streams lossily on success. -/
def run (env : ProcEnv) (cmd : String) : RunResult Error :=
  match (setup_process cmd).1 with
  | none => .panicked
  | some (prog, args) =>
    match checked_output env prog args with
    | .error e => .err (Error.from_checked e)
    | .ok o => .ok { stdout := from_utf8_lossy o.stdout
                     stderr := from_utf8_lossy o.stderr }

/-- `run_with_stdin` (lib.rs lines 138-156): tokenize; configure stdin
and stdout as piped (`cmd.stdin(Stdio::piped()).stdout(Stdio::piped())`
— stderr is left at its default and is not captured); spawn, mapping a
spawn error through `Error::from` and the caller's conversion (`?`
with `E: From<Error>`); unwrap the child's stdin handle; feed it to
the caller's function `f`, propagating `f`'s error immediately (`?`)
without waiting for the child; then wait for the child and classify
exactly as `run` does, lossily decoding the captured streams. -/
def run_with_stdin {ε : Type} (env : ProcEnv) (cmd : String)
    (conv : Error → ε) (f : ChildStdin → Except ε Unit) : RunResult ε :=
  match (setup_process cmd).1 with
  | none => .panicked
  | some (prog, args) =>
    match spawn env prog args ⟨true, true, false⟩ with
    | .error e => .err (conv (Error.Io e))
    | .ok child =>
      match child.stdin with
      | none => .panicked
      | some stdin =>
        match f stdin with
        | .error e => .err e
        | .ok _ =>
          match wait_with_output child with
          | .error ce => .err (conv (Error.from_checked ce))
          | .ok o => .ok { stdout := from_utf8_lossy o.stdout
                           stderr := from_utf8_lossy o.stderr }

/-! ## Concrete environments used by the witnesses -/

/-- An OS in which every program exits 0, writing `"hi"` to stdout and
`"e"` to stderr. -/
def envOk : ProcEnv := fun _ _ => .proc ⟨some 0⟩ [104, 105] [101]

/-- An OS in which every program exits 1, writing `"o"` to stdout and
`"er"` to stderr. -/
def envFail : ProcEnv := fun _ _ => .proc ⟨some 1⟩ [111] [101, 114]

/-- An OS in which every spawn fails with an I/O error. -/
def envIo : ProcEnv := fun _ _ => .ioErr ⟨2⟩

/-- An OS in which every program exits 0 writing nothing to stdout and
`"e"` to stderr. -/
def envStderrOnly : ProcEnv := fun _ _ => .proc ⟨some 0⟩ [] [101]

/-- An OS in which every program exits 0 writing the invalid UTF-8
byte `0xFF` to stdout and nothing to stderr. -/
def envInvalidUtf8 : ProcEnv := fun _ _ => .proc ⟨some 0⟩ [0xFF] []

/-! ## Helper lemmas -/

/-- `setup_process` yields `none` (the panic) exactly on an empty token
stream. -/
lemma setup_process_fst_none (cmd : String) (h : tokensOf cmd = []) :
    (setup_process cmd).1 = none := by
  simp only [tokensOf] at h
  simp [setup_process, h]

/-- `setup_process` yields the head token as the program and the rest
as arguments. -/
lemma setup_process_fst_some (cmd prog : String) (args : List String)
    (h : tokensOf cmd = prog :: args) :
    (setup_process cmd).1 = some (prog, args) := by
  simp only [tokensOf] at h
  simp [setup_process, h]

/-- Once the token stream is non-empty, no branch of `run_with_stdin`
panics: a spawn failure and a writer failure yield `err`, and a
successful spawn always has a stdin handle because stdin is configured
piped. -/
lemma run_with_stdin_no_panic {ε : Type} (env : ProcEnv) (cmd prog : String)
    (args : List String) (conv : Error → ε) (f : ChildStdin → Except ε Unit)
    (h : (setup_process cmd).1 = some (prog, args)) :
    run_with_stdin env cmd conv f ≠ .panicked := by
  cases henv : env prog args with
  | ioErr e => simp [run_with_stdin, h, spawn, henv]
  | proc st out err =>
    cases hf : f () with
    | error e => simp [run_with_stdin, h, spawn, henv, hf]
    | ok u =>
      simp only [run_with_stdin, h, spawn, henv, hf, wait_with_output, if_true]
      split <;> simp

/-- Once the token stream is non-empty, `run` never panics. -/
lemma run_no_panic (env : ProcEnv) (cmd prog : String) (args : List String)
    (h : (setup_process cmd).1 = some (prog, args)) :
    run env cmd ≠ .panicked := by
  cases hco : checked_output env prog args <;> simp [run, h, hco]

/-- A character's code point is a valid Unicode scalar value, stated
over `Nat`. -/
lemma char_toNat_valid (c : Char) :
    c.toNat < 0xD800 ∨ (0xDFFF < c.toNat ∧ c.toNat < 0x110000) := by
  rcases c.valid with h | ⟨h1, h2⟩
  · exact Or.inl (UInt32.toNat_lt_of_lt (by decide) h)
  · exact Or.inr ⟨UInt32.lt_toNat_of_lt (by decide) h1,
      UInt32.toNat_lt_of_lt (by decide) h2⟩

/-- One-step decode of an ASCII byte. -/
lemma lossy_one (b : Nat) (rest : List Nat) (h : b ≤ 0x7F) :
    lossyChars (b :: rest) = Char.ofNat b :: lossyChars rest := by
  rcases rest with _ | ⟨x, _ | ⟨y, _ | ⟨z, r⟩⟩⟩
  · rw [lossyChars.eq_2, if_pos h]
  · rw [lossyChars.eq_3, if_pos h]
  · rw [lossyChars.eq_4, if_pos h]
  · rw [lossyChars.eq_5, if_pos h]

/-- One-step decode of a well-formed 2-byte sequence. -/
lemma lossy_two (b c1 : Nat) (rest : List Nat) (hb1 : 0xC2 ≤ b)
    (hb2 : b ≤ 0xDF) (hc1 : isCont c1 = true) :
    lossyChars (b :: c1 :: rest) =
      Char.ofNat ((b - 0xC0) * 0x40 + (c1 - 0x80)) :: lossyChars rest := by
  rcases rest with _ | ⟨x, _ | ⟨y, r⟩⟩
  · rw [lossyChars.eq_3, if_neg (show ¬(b ≤ 0x7F) by omega),
      if_neg (show ¬(b < 0xC2) by omega), if_pos hb2, if_pos hc1]
  · rw [lossyChars.eq_4, if_neg (show ¬(b ≤ 0x7F) by omega),
      if_neg (show ¬(b < 0xC2) by omega), if_pos hb2, if_pos hc1]
  · rw [lossyChars.eq_5, if_neg (show ¬(b ≤ 0x7F) by omega),
      if_neg (show ¬(b < 0xC2) by omega), if_pos hb2, if_pos hc1]

/-- One-step decode of a well-formed 3-byte sequence. -/
lemma lossy_three (b c1 c2 : Nat) (rest : List Nat) (hb1 : 0xE0 ≤ b)
    (hb2 : b ≤ 0xEF)
    (hcond : (if b = 0xE0 then 0xA0 ≤ c1 && c1 ≤ 0xBF
      else if b = 0xED then 0x80 ≤ c1 && c1 ≤ 0x9F
      else isCont c1) = true)
    (hc2 : isCont c2 = true) :
    lossyChars (b :: c1 :: c2 :: rest) =
      Char.ofNat ((b - 0xE0) * 0x1000 + (c1 - 0x80) * 0x40 + (c2 - 0x80)) ::
        lossyChars rest := by
  rcases rest with _ | ⟨x, r⟩
  · rw [lossyChars.eq_4, if_neg (show ¬(b ≤ 0x7F) by omega),
      if_neg (show ¬(b < 0xC2) by omega), if_neg (show ¬(b ≤ 0xDF) by omega),
      if_pos hb2, if_pos hcond, if_pos hc2]
  · rw [lossyChars.eq_5, if_neg (show ¬(b ≤ 0x7F) by omega),
      if_neg (show ¬(b < 0xC2) by omega), if_neg (show ¬(b ≤ 0xDF) by omega),
      if_pos hb2, if_pos hcond, if_pos hc2]

/-- One-step decode of a well-formed 4-byte sequence. -/
lemma lossy_four (b c1 c2 c3 : Nat) (rest : List Nat) (hb1 : 0xF0 ≤ b)
    (hb2 : b ≤ 0xF4)
    (hcond : (if b = 0xF0 then 0x90 ≤ c1 && c1 ≤ 0xBF
      else if b = 0xF4 then 0x80 ≤ c1 && c1 ≤ 0x8F
      else isCont c1) = true)
    (hc2 : isCont c2 = true) (hc3 : isCont c3 = true) :
    lossyChars (b :: c1 :: c2 :: c3 :: rest) =
      Char.ofNat ((b - 0xF0) * 0x40000 + (c1 - 0x80) * 0x1000 +
        (c2 - 0x80) * 0x40 + (c3 - 0x80)) :: lossyChars rest := by
  rw [lossyChars.eq_5, if_neg (show ¬(b ≤ 0x7F) by omega),
    if_neg (show ¬(b < 0xC2) by omega), if_neg (show ¬(b ≤ 0xDF) by omega),
    if_neg (show ¬(b ≤ 0xEF) by omega), if_pos hb2, if_pos hcond,
    if_pos hc2, if_pos hc3]

/-- Decoding the UTF-8 encoding of any valid scalar value recovers
exactly that character, consuming exactly its bytes. -/
lemma lossyChars_encodeCharNat (n : Nat) (rest : List Nat)
    (hv : n < 0xD800 ∨ (0xDFFF < n ∧ n < 0x110000)) :
    lossyChars (encodeCharNat n ++ rest) = Char.ofNat n :: lossyChars rest := by
  rcases Nat.lt_or_ge n 0x80 with h | h
  · simp only [encodeCharNat, if_pos h, List.cons_append, List.nil_append]
    rw [lossy_one n rest (by omega)]
  · rcases Nat.lt_or_ge n 0x800 with h2 | h2
    · simp only [encodeCharNat, if_neg (show ¬ n < 0x80 by omega), if_pos h2,
        List.cons_append, List.nil_append]
      rw [lossy_two _ _ rest (by omega) (by omega)
        (by simp only [isCont, Bool.and_eq_true, decide_eq_true_eq]; omega)]
      have harith : (0xC0 + n / 0x40 - 0xC0) * 0x40 + (0x80 + n % 0x40 - 0x80) = n := by
        omega
      rw [harith]
    · rcases Nat.lt_or_ge n 0x10000 with h3 | h3
      · have hs : n < 0xD800 ∨ 0xDFFF < n := by
          rcases hv with hv | ⟨hv1, _⟩
          · exact Or.inl hv
          · exact Or.inr hv1
        simp only [encodeCharNat, if_neg (show ¬ n < 0x80 by omega),
          if_neg (show ¬ n < 0x800 by omega), if_pos h3,
          List.cons_append, List.nil_append]
        rw [lossy_three _ _ _ rest (by omega) (by omega) ?hcond
          (by simp only [isCont, Bool.and_eq_true, decide_eq_true_eq]; omega)]
        case hcond =>
          rcases Nat.lt_or_ge n 0x1000 with h' | h'
          · rw [if_pos (by omega)]
            simp only [Bool.and_eq_true, decide_eq_true_eq]
            omega
          · rcases Nat.lt_or_ge n 0xD000 with h'' | h''
            · rw [if_neg (by omega), if_neg (by omega)]
              simp only [isCont, Bool.and_eq_true, decide_eq_true_eq]
              omega
            · rcases Nat.lt_or_ge n 0xE000 with h3' | h3'
              · have hlt : n < 0xD800 := by rcases hs with hs | hs <;> omega
                rw [if_neg (by omega), if_pos (by omega)]
                simp only [Bool.and_eq_true, decide_eq_true_eq]
                omega
              · rw [if_neg (by omega), if_neg (by omega)]
                simp only [isCont, Bool.and_eq_true, decide_eq_true_eq]
                omega
        have harith : (0xE0 + n / 0x1000 - 0xE0) * 0x1000 +
            (0x80 + (n / 0x40) % 0x40 - 0x80) * 0x40 + (0x80 + n % 0x40 - 0x80) = n := by
          omega
        rw [harith]
      · have h4 : n < 0x110000 := by
          rcases hv with hv | ⟨_, hv2⟩ <;> omega
        simp only [encodeCharNat, if_neg (show ¬ n < 0x80 by omega),
          if_neg (show ¬ n < 0x800 by omega), if_neg (show ¬ n < 0x10000 by omega),
          List.cons_append, List.nil_append]
        rw [lossy_four _ _ _ _ rest (by omega) (by omega) ?hcond4
          (by simp only [isCont, Bool.and_eq_true, decide_eq_true_eq]; omega)
          (by simp only [isCont, Bool.and_eq_true, decide_eq_true_eq]; omega)]
        case hcond4 =>
          rcases Nat.lt_or_ge n 0x40000 with h' | h'
          · rw [if_pos (by omega)]
            simp only [Bool.and_eq_true, decide_eq_true_eq]
            omega
          · rcases Nat.lt_or_ge n 0x100000 with h'' | h''
            · rw [if_neg (by omega), if_neg (by omega)]
              simp only [isCont, Bool.and_eq_true, decide_eq_true_eq]
              omega
            · rw [if_neg (by omega), if_pos (by omega)]
              simp only [Bool.and_eq_true, decide_eq_true_eq]
              omega
        have harith : (0xF0 + n / 0x40000 - 0xF0) * 0x40000 +
            (0x80 + (n / 0x1000) % 0x40 - 0x80) * 0x1000 +
            (0x80 + (n / 0x40) % 0x40 - 0x80) * 0x40 + (0x80 + n % 0x40 - 0x80) = n := by
          omega
        rw [harith]

/-- Decoding the UTF-8 encoding of a character recovers the character. -/
lemma lossyChars_encodeChar (c : Char) (rest : List Nat) :
    lossyChars (encodeChar c ++ rest) = c :: lossyChars rest := by
  have h := lossyChars_encodeCharNat c.toNat rest (char_toNat_valid c)
  simpa [encodeChar] using h

/-- Lossy decoding is exact on the UTF-8 encoding of any character
list. -/
lemma lossyChars_encode_list (l : List Char) :
    lossyChars ((l.map encodeChar).flatten) = l := by
  induction l with
  | nil => rfl
  | cons c l ih =>
    simp only [List.map_cons, List.flatten_cons]
    rw [lossyChars_encodeChar, ih]

/-- Inside double quotes, ordinary characters (no `"` and no `\`) are
accumulated literally into the current token — whitespace included. -/
lemma foldl_tokStep_double (t : List Char) (cur : List Char)
    (acc : List (List Char)) (h : ∀ c ∈ t, c ≠ '"' ∧ c ≠ '\\') :
    t.foldl tokStep ⟨.double, some cur, acc⟩ =
      ⟨.double, some (t.reverse ++ cur), acc⟩ := by
  induction t generalizing cur with
  | nil => simp
  | cons c t ih =>
    have hc := h c (by simp)
    have ht : ∀ x ∈ t, x ≠ '"' ∧ x ≠ '\\' := fun x hx => h x (by simp [hx])
    simp only [List.foldl_cons]
    rw [show tokStep ⟨.double, some cur, acc⟩ c = ⟨.double, some (c :: cur), acc⟩
      from by simp [tokStep, hc.1, hc.2]]
    rw [ih (c :: cur) ht]
    simp

/-- Outside quotes, ordinary characters (not whitespace, quote or
backslash) are accumulated literally into the current token. -/
lemma foldl_tokStep_norm (t : List Char) (cur : List Char)
    (acc : List (List Char))
    (h : ∀ c ∈ t, c.isWhitespace = false ∧ c ≠ '\'' ∧ c ≠ '"' ∧ c ≠ '\\') :
    t.foldl tokStep ⟨.norm, some cur, acc⟩ =
      ⟨.norm, some (t.reverse ++ cur), acc⟩ := by
  induction t generalizing cur with
  | nil => simp
  | cons c t ih =>
    have hc := h c (by simp)
    have ht : ∀ x ∈ t, x.isWhitespace = false ∧ x ≠ '\'' ∧ x ≠ '"' ∧ x ≠ '\\' :=
      fun x hx => h x (by simp [hx])
    simp only [List.foldl_cons]
    rw [show tokStep ⟨.norm, some cur, acc⟩ c = ⟨.norm, some (c :: cur), acc⟩
      from by simp [tokStep, hc.1, hc.2.1, hc.2.2.1, hc.2.2.2]]
    rw [ih (c :: cur) ht]
    simp

/-! ## Claims -/

/-- **C1.** For every well-formed command string whose program runs to
completion and exits with status 0, `run` returns `Ok` with an `Output`
whose `stdout` and `stderr` fields are exactly the lossy-UTF-8 decoding
of the bytes the process wrote to the corresponding stream. -/
theorem run_success_exact (env : ProcEnv) (cmd prog : String)
    (args : List String) (st : ExitStatus) (out err : List Nat)
    (htok : tokensOf cmd = prog :: args)
    (henv : env prog args = .proc st out err)
    (hst : st.success = true) :
    run env cmd = .ok ⟨from_utf8_lossy out, from_utf8_lossy err⟩ := by
  simp only [tokensOf] at htok
  simp [run, setup_process, htok, checked_output, spawn, henv,
    wait_with_output, hst]

/-- Witness for C1 at the concrete command `"prog"` under `envOk`. -/
theorem run_success_exact_witness :
    run envOk "prog" = .ok ⟨"hi", "e"⟩ :=
  run_success_exact envOk "prog" "prog" [] ⟨some 0⟩ [104, 105] [101]
    (by decide) rfl (by decide)

/-- **C2.** For every command string whose program runs to completion
and exits with non-zero status, `run` returns the `Failure` variant
whose embedded exit status equals the process's actual exit status and
whose embedded `Output` is the lossy decoding of the captured streams;
and whenever the underlying primitive reports no output, the `From`
conversion embeds `Output::default()` (both fields empty). -/
theorem run_failure_exact (env : ProcEnv) (cmd prog : String)
    (args : List String) (st : ExitStatus) (out err : List Nat)
    (htok : tokensOf cmd = prog :: args)
    (henv : env prog args = .proc st out err)
    (hst : st.success = false) :
    run env cmd =
      .err (.Failure st ⟨from_utf8_lossy out, from_utf8_lossy err⟩) ∧
    ∀ ex : ExitStatus,
      Error.from_checked (.Failure ex none) = .Failure ex ⟨"", ""⟩ := by
  constructor
  · simp only [tokensOf] at htok
    simp [run, setup_process, htok, checked_output, spawn, henv,
      wait_with_output, hst, Error.from_checked]
  · intro ex
    simp [Error.from_checked, Output.default]

/-- Witness for C2 at the concrete command `"prog"` under `envFail`. -/
theorem run_failure_exact_witness :
    run envFail "prog" = .err (.Failure ⟨some 1⟩ ⟨"o", "er"⟩) ∧
    Error.from_checked (.Failure ⟨some 1⟩ none) = .Failure ⟨some 1⟩ ⟨"", ""⟩ := by
  have h := run_failure_exact envFail "prog" "prog" [] ⟨some 1⟩ [111] [101, 114]
    (by decide) rfl (by decide)
  exact ⟨h.1, h.2 ⟨some 1⟩⟩

/-- **C5.** In `run_with_stdin`, if the caller-supplied writer function
returns an error, that error value is propagated to the caller
immediately: the result is `err e` for every exit status and every
pair of output byte streams the child might later produce (so the
result does not depend on waiting for the child), and the `err`
constructor carries no `Output`. -/
theorem run_with_stdin_writer_error {ε : Type} (env : ProcEnv)
    (cmd prog : String) (args : List String) (st : ExitStatus)
    (out errBytes : List Nat) (conv : Error → ε)
    (f : ChildStdin → Except ε Unit) (e : ε)
    (htok : tokensOf cmd = prog :: args)
    (henv : env prog args = .proc st out errBytes)
    (hf : f () = .error e) :
    run_with_stdin env cmd conv f = .err e := by
  simp only [tokensOf] at htok
  simp [run_with_stdin, setup_process, htok, spawn, henv, hf]

/-- Witness for C5: a writer that always fails under `envOk`. -/
theorem run_with_stdin_writer_error_witness :
    run_with_stdin envOk "prog" id (fun _ => .error (Error.Io ⟨7⟩)) =
      .err (Error.Io ⟨7⟩) :=
  run_with_stdin_writer_error envOk "prog" "prog" [] ⟨some 0⟩ [104, 105] [101]
    id (fun _ => .error (Error.Io ⟨7⟩)) (Error.Io ⟨7⟩) (by decide) rfl rfl

/-- **C6.** For every command string naming a program that cannot be
spawned, `run` returns the `Io` variant wrapping the underlying
operating-system error; the `Io` constructor carries no `Output`. -/
theorem run_io_error (env : ProcEnv) (cmd prog : String)
    (args : List String) (e : IoError)
    (htok : tokensOf cmd = prog :: args)
    (henv : env prog args = .ioErr e) :
    run env cmd = .err (.Io e) := by
  simp only [tokensOf] at htok
  simp [run, setup_process, htok, checked_output, spawn, henv,
    Error.from_checked]

/-- Witness for C6 at the concrete command `"prog"` under `envIo`. -/
theorem run_io_error_witness :
    run envIo "prog" = .err (.Io ⟨2⟩) :=
  run_io_error envIo "prog" "prog" [] ⟨2⟩ (by decide) rfl

/-- **C4.** The empty string and a whitespace-only string tokenize to
zero tokens; for every input that tokenizes to zero tokens both `run`
and `run_with_stdin` panic (the modelled `unwrap` on the missing first
token) rather than returning any `Error` value; and for every input
yielding at least one token this panic branch is unreachable in both
entry points. -/
theorem empty_command_panics :
    (tokensOf "" = [] ∧ tokensOf "   " = []) ∧
    (∀ (env : ProcEnv) (cmd : String),
      tokensOf cmd = [] → run env cmd = .panicked) ∧
    (∀ (ε : Type) (env : ProcEnv) (cmd : String) (conv : Error → ε)
        (f : ChildStdin → Except ε Unit),
      tokensOf cmd = [] → run_with_stdin env cmd conv f = .panicked) ∧
    (∀ (env : ProcEnv) (cmd : String),
      tokensOf cmd ≠ [] → run env cmd ≠ .panicked) ∧
    (∀ (ε : Type) (env : ProcEnv) (cmd : String) (conv : Error → ε)
        (f : ChildStdin → Except ε Unit),
      tokensOf cmd ≠ [] → run_with_stdin env cmd conv f ≠ .panicked) := by
  refine ⟨⟨by decide, by decide⟩, ?_, ?_, ?_, ?_⟩
  · intro env cmd h
    simp [run, setup_process_fst_none cmd h]
  · intro ε env cmd conv f h
    simp [run_with_stdin, setup_process_fst_none cmd h]
  · intro env cmd h
    rcases hcase : tokensOf cmd with _ | ⟨p, args⟩
    · exact absurd hcase h
    · exact run_no_panic env cmd p args (setup_process_fst_some cmd p args hcase)
  · intro ε env cmd conv f h
    rcases hcase : tokensOf cmd with _ | ⟨p, args⟩
    · exact absurd hcase h
    · exact run_with_stdin_no_panic env cmd p args conv f
        (setup_process_fst_some cmd p args hcase)

/-- Witness for C4: at `""` the run panics, at `"prog"` it does not. -/
theorem empty_command_panics_witness :
    run envOk "" = .panicked ∧ run envOk "prog" ≠ .panicked :=
  ⟨empty_command_panics.2.1 envOk "" (by decide),
   empty_command_panics.2.2.2.1 envOk "prog" (by decide)⟩

/-- **C9.** The unwrap of the spawned child's stdin handle in
`run_with_stdin` never panics: every successfully spawned child under
the configuration `run_with_stdin` uses (stdin piped) has an available
stdin handle, and consequently the only way `run_with_stdin` can panic
is the empty-token-stream unwrap of `setup_process`. -/
theorem stdin_handle_available :
    (∀ (env : ProcEnv) (prog : String) (args : List String) (child : Child),
      spawn env prog args ⟨true, true, false⟩ = .ok child →
      child.stdin.isSome = true) ∧
    (∀ (ε : Type) (env : ProcEnv) (cmd : String) (conv : Error → ε)
        (f : ChildStdin → Except ε Unit),
      run_with_stdin env cmd conv f = .panicked →
      (setup_process cmd).1 = none) := by
  constructor
  · intro env prog args child h
    cases henv : env prog args with
    | ioErr e => simp [spawn, henv] at h
    | proc st out err =>
      simp [spawn, henv] at h
      rw [← h]
      rfl
  · intro ε env cmd conv f h
    rcases hsp : (setup_process cmd).1 with _ | ⟨p, args⟩
    · rfl
    · exact absurd h (run_with_stdin_no_panic env cmd p args conv f hsp)

/-- Witness for C9 at a concrete successful spawn under `envOk`. -/
theorem stdin_handle_available_witness :
    (Child.stdin ⟨some (), ⟨some 0⟩, [104, 105], []⟩).isSome = true :=
  stdin_handle_available.1 envOk "p" [] ⟨some (), ⟨some 0⟩, [104, 105], []⟩ rfl

/-- **C3 counterexample.** The claim that `run_with_stdin` captures
stderr fails on the code: `run_with_stdin` pipes only stdin and stdout,
so under an OS where the child exits 0 after writing the byte `101`
(`"e"`) to stderr, the returned `Output` has `stderr = ""`, not the
lossy decoding `"e"` of the bytes the process wrote to that stream. -/
theorem run_with_stdin_stderr_cex :
    run_with_stdin envStderrOnly "rev" id (fun _ => .ok ()) = .ok ⟨"", ""⟩ ∧
    from_utf8_lossy [101] = "e" ∧ ("" : String) ≠ "e" := by
  refine ⟨by decide, by decide, by decide⟩

/-- **C3 (amended).** For every command string, if the writer function
succeeds, `run_with_stdin` waits for the child and applies the same
success/process-failure classification as `run`; on success the
`stdout` field is the lossy-UTF-8 decoding of the captured stdout
bytes, but stderr is not piped, so no stderr bytes are captured and
the `stderr` field is always empty (likewise in the embedded `Output`
of a process failure). -/
theorem run_with_stdin_output_amended {ε : Type} (env : ProcEnv)
    (cmd prog : String) (args : List String) (st : ExitStatus)
    (out err : List Nat) (conv : Error → ε) (f : ChildStdin → Except ε Unit)
    (htok : tokensOf cmd = prog :: args)
    (henv : env prog args = .proc st out err)
    (hf : f () = .ok ()) :
    (st.success = true →
      run_with_stdin env cmd conv f = .ok ⟨from_utf8_lossy out, ""⟩) ∧
    (st.success = false →
      run_with_stdin env cmd conv f =
        .err (conv (.Failure st ⟨from_utf8_lossy out, ""⟩))) := by
  have hsp := setup_process_fst_some cmd prog args htok
  have h0 : from_utf8_lossy [] = "" := rfl
  constructor <;> intro hst <;>
    simp [run_with_stdin, hsp, spawn, henv, hf, wait_with_output, hst,
      Error.from_checked, h0]

/-- Witness for the amended C3 under `envOk` (the child writes `"e"`
to stderr, yet the returned `stderr` field is empty). -/
theorem run_with_stdin_output_amended_witness :
    run_with_stdin envOk "prog" id (fun _ => .ok ()) = .ok ⟨"hi", ""⟩ :=
  (run_with_stdin_output_amended envOk "prog" "prog" [] ⟨some 0⟩
    [104, 105] [101] id (fun _ => .ok ()) (by decide) rfl rfl).1 rfl

/-- **C7.** Tokenization preserves quoting fidelity: any double-quoted
argument (no inner `"` or `\`) — embedded spaces included — becomes a
single token; any unquoted run of non-special characters (covering
shell metacharacters like `|` and `>`) is passed through as one literal
token, never interpreted; concretely `"p | > x"` tokenizes to the four
literal tokens; and the token list is exactly what `setup_process`
delivers to the child as program and arguments. -/
theorem quoting_fidelity :
    (∀ t : List Char, (∀ c ∈ t, c ≠ '"' ∧ c ≠ '\\') →
      tokensOf ("p \"" ++ String.mk t ++ "\"") = ["p", String.mk t]) ∧
    (∀ t : List Char,
      (∀ c ∈ t, c.isWhitespace = false ∧ c ≠ '\'' ∧ c ≠ '"' ∧ c ≠ '\\') →
      t ≠ [] → tokensOf ("p " ++ String.mk t) = ["p", String.mk t]) ∧
    tokensOf "p | > x" = ["p", "|", ">", "x"] ∧
    (∀ (cmd prog : String) (args : List String),
      tokensOf cmd = prog :: args → (setup_process cmd).1 = some (prog, args)) := by
  refine ⟨?_, ?_, by decide, fun cmd prog args h => setup_process_fst_some cmd prog args h⟩
  · intro t ht
    unfold tokensOf parse_posix
    simp only [String.data_append, List.append_assoc]
    rw [List.foldl_append, List.foldl_append]
    rw [show List.foldl tokStep ⟨.norm, none, []⟩ "p \"".data =
      ⟨.double, some [], [['p']]⟩ from by decide]
    rw [foldl_tokStep_double t [] [['p']] ht]
    simp [tokStep]
  · intro t ht hne
    obtain ⟨c, t', rfl⟩ := List.exists_cons_of_ne_nil hne
    have hc := ht c (by simp)
    have ht' : ∀ x ∈ t', x.isWhitespace = false ∧ x ≠ '\'' ∧ x ≠ '"' ∧ x ≠ '\\' :=
      fun x hx => ht x (by simp [hx])
    unfold tokensOf parse_posix
    simp only [String.data_append]
    rw [List.foldl_append]
    rw [show List.foldl tokStep ⟨.norm, none, []⟩ "p ".data =
      ⟨.norm, none, [['p']]⟩ from by decide]
    show (let fin := List.foldl tokStep ⟨.norm, none, [['p']]⟩ (c :: t'); _) = _
    simp only [List.foldl_cons]
    rw [show tokStep ⟨.norm, none, [['p']]⟩ c = ⟨.norm, some [c], [['p']]⟩
      from by simp [tokStep, hc.1, hc.2.1, hc.2.2.1, hc.2.2.2]]
    rw [foldl_tokStep_norm t' [c] [['p']] ht']
    simp

/-- Witness for C7: a double-quoted argument with an embedded space is
one token, and so is a lone `|`. -/
theorem quoting_fidelity_witness :
    tokensOf ("p \"" ++ String.mk ['a', ' ', 'b'] ++ "\"") =
      ["p", String.mk ['a', ' ', 'b']] ∧
    tokensOf ("p " ++ String.mk ['|']) = ["p", String.mk ['|']] :=
  ⟨quoting_fidelity.1 ['a', ' ', 'b'] (by decide),
   quoting_fidelity.2.1 ['|'] (by decide) (by decide)⟩

/-- **C10.** Neither `run` nor `run_with_stdin` mutates the caller's
command string: `setup_process` copies the string before the in-place
tokenizer runs, so the caller's argument is returned unchanged — even
though the in-place tokenizer does in general modify the buffer it is
run on, as the second conjunct shows on a quoted input. -/
theorem caller_string_unchanged :
    (∀ cmd : String, (setup_process cmd).2 = cmd) ∧
    (parse_posix "a\"b c\"").2 ≠ "a\"b c\"".data :=
  ⟨fun _ => rfl, by decide⟩

/-- Witness for C10 at the concrete command `"prog"`. -/
theorem caller_string_unchanged_witness :
    (setup_process "prog").2 = "prog" :=
  caller_string_unchanged.1 "prog"

/-- **C8.** Decoding the captured bytes into the `Output` text fields
is total: for every pair of byte sequences a successful child may
produce — valid UTF-8 or not — `run` returns `ok` with the lossily
decoded fields, so decoding never raises an error or fails the run;
on any valid UTF-8 byte sequence the decoding is exact; and invalid
byte sequences are replaced with the placeholder U+FFFD. -/
theorem lossy_decoding_total :
    (∀ (env : ProcEnv) (cmd prog : String) (args : List String)
        (st : ExitStatus) (out err : List Nat),
      tokensOf cmd = prog :: args → env prog args = .proc st out err →
      st.success = true →
      run env cmd = .ok ⟨from_utf8_lossy out, from_utf8_lossy err⟩) ∧
    (∀ s : String, from_utf8_lossy (utf8Encode s) = s) ∧
    from_utf8_lossy [0xFF] = String.mk [replacementChar] ∧
    from_utf8_lossy [104, 0xFF, 105] = String.mk ['h', replacementChar, 'i'] := by
  refine ⟨?_, ?_, by decide, by decide⟩
  · intro env cmd prog args st out err htok henv hst
    simp only [tokensOf] at htok
    simp [run, setup_process, htok, checked_output, spawn, henv,
      wait_with_output, hst]
  · intro s
    show String.mk (lossyChars ((s.data.map encodeChar).flatten)) = s
    rw [lossyChars_encode_list]

/-- Witness for C8: a child that writes the invalid byte `0xFF` still
yields a successful run, with the byte replaced by U+FFFD. -/
theorem lossy_decoding_total_witness :
    run envInvalidUtf8 "prog" = .ok ⟨String.mk [replacementChar], ""⟩ :=
  lossy_decoding_total.1 envInvalidUtf8 "prog" "prog" [] ⟨some 0⟩ [0xFF] []
    (by decide) rfl rfl

end EasyProcess

